import Mathlib

/-!
Verification development for the BakeChat document question-answering
pipeline (src/extract_documents.py, src/query_handler.py,
src/index_manager.py).  Text is modelled as `List Char`; Python regular
expression substitutions are embedded as structurally recursive functions
on character lists; relevance scores (Python floats) are modelled as exact
rationals; external collaborators (the langchain text splitter, the FAISS
index and the OpenAI completion call) are passed in as function / result
parameters, mirroring the contract boundaries named in the spec.
-/

/-! ## Character classes (Python regex classes, restricted to the
alphabet relevant to this repository) -/

/-- Characters matched by the regex class `[ \t]` (used in
`re.sub(r'[ \t]+', ' ', text)` in `clean_text`). -/
def isSpTab (c : Char) : Bool :=
  c = ' ' || c = '\t'

/-- Characters matched by `\s` in Python regular expressions and stripped
by `str.strip()`: space, tab, newline, carriage return, vertical tab,
form feed. -/
def isPySpace (c : Char) : Bool :=
  c = ' ' || c = '\t' || c = '\n' || c = '\r' ||
  c = Char.ofNat 11 || c = Char.ofNat 12

/-- Characters matched by `\w`: ASCII alphanumerics, underscore, and the
accented Latin letters used by the Spanish documents (Latin-1 supplement
and Latin Extended-A letter ranges, excluding the two arithmetic signs
0xD7 and 0xF7). -/
def isWordChar (c : Char) : Bool :=
  c.isAlphanum || c = '_' ||
  (0xC0 ≤ c.toNat && c.toNat ≤ 0x17F && !(c.toNat = 0xD7) && !(c.toNat = 0xF7))

/-- The punctuation retained by `clean_text`'s allow-list
`[^\w\s\.,;:()¿?¡!-]`. -/
def punctAllowed (c : Char) : Bool :=
  c = '.' || c = ',' || c = ';' || c = ':' || c = '(' || c = ')' ||
  c = '¿' || c = '?' || c = '¡' || c = '!' || c = '-'

/-- A character survives `re.sub(r'[^\w\s\.,;:()¿?¡!-]', '', text)`. -/
def isAllowed (c : Char) : Bool :=
  isWordChar c || isPySpace c || punctAllowed c

/-! ## Generic list helpers -/

/-- `startsWith pat l` : `pat` is an initial segment of `l`. -/
def startsWith : List Char → List Char → Bool
  | [], _ => true
  | _ :: _, [] => false
  | p :: ps, c :: cs => p = c && startsWith ps cs

/-- `containsSub pat l` : `pat` occurs as a contiguous substring of `l`
(the Python `in` operator on strings). -/
def containsSub (pat : List Char) : List Char → Bool
  | [] => startsWith pat []
  | c :: cs => startsWith pat (c :: cs) || containsSub pat cs

/-- Remove the longest suffix of `l` all of whose characters satisfy `p`. -/
def dropTrailing (p : Char → Bool) : List Char → List Char
  | [] => []
  | c :: cs =>
    let r := dropTrailing p cs
    if r = [] && p c then [] else c :: r

/-- Python `str.strip()`: remove leading and trailing whitespace. -/
def pyStrip (l : List Char) : List Char :=
  dropTrailing isPySpace (l.dropWhile isPySpace)

/-! ## Text Normalizer — `clean_text` (src/extract_documents.py lines 37-54) -/

/-- `text.replace('\f', '\n\n')`. -/
def replFF (l : List Char) : List Char :=
  l.flatMap (fun c => if c = Char.ofNat 12 then ['\n', '\n'] else [c])

/-- Streaming form of `re.sub(r'[ \t]+', ' ', text)`: the flag records
whether the scan is currently inside a space/tab run whose single output
space has already been emitted. -/
def cwsAux : Bool → List Char → List Char
  | _, [] => []
  | inRun, c :: cs =>
    if isSpTab c then
      if inRun then cwsAux true cs else ' ' :: cwsAux true cs
    else c :: cwsAux false cs

/-- `re.sub(r'[ \t]+', ' ', text)`: collapse each run of spaces/tabs to a
single space. -/
def collapseWS (l : List Char) : List Char :=
  cwsAux false l

/-- Streaming form of `re.sub(r'\n{3,}', '\n\n', text)`: `k` counts the
newlines already emitted for the current newline run (capped at 2); a run
of three or more newlines contributes exactly two to the output. -/
def cnlAux : Nat → List Char → List Char
  | _, [] => []
  | k, c :: cs =>
    if c = '\n' then
      if k < 2 then '\n' :: cnlAux (k + 1) cs else cnlAux k cs
    else c :: cnlAux 0 cs

/-- `re.sub(r'\n{3,}', '\n\n', text)`. -/
def collapseNL (l : List Char) : List Char :=
  cnlAux 0 l

/-- `clean_text` (src/extract_documents.py): the empty-input guard, the
form-feed replacement, whitespace collapsing, newline collapsing, the
character allow-list deletion, and the final strip, in source order. -/
def clean_text (text : List Char) : List Char :=
  if text = [] then []
  else pyStrip (List.filter isAllowed (collapseNL (collapseWS (replFF text))))

/-! ## Article Segmenter — `extract_article_with_context`
(src/extract_documents.py lines 19-35)

The regex
`(?:Artículo|Art\.) *(\d+)[.\s]+(.*?)(?=(?:Artículo|Art\.) *\d+[.\s]|$)`
is compiled with `re.DOTALL` only (no `re.IGNORECASE`), so the marker
literals are matched case-sensitively.  The embedding below reproduces
the backtracking engine's behaviour on this particular pattern:

* at a position starting with the literal `Artículo` the second
  alternative `Art\.` can never succeed (the fourth character there is
  `í`, not `.`), so trying the first alternative and committing is
  equivalent to full backtracking;
* `\d+` is greedy and `[.\s]` matches no digit, so the digit group is
  the maximal digit run; likewise `[.\s]+` is the maximal run because
  the remainder `(.*?)(?=…|$)` always succeeds under `re.DOTALL`
  (the `$` branch of the lookahead holds at end of input);
* the lazy `(.*?)` stops at the first position where the lookahead
  matches; without `re.MULTILINE`, `$` matches at end of input or just
  before a terminal newline. -/

/-- The literal marker `Artículo`. -/
def artFull : List Char := ( "Artículo").data

/-- The literal marker `Art.`. -/
def artAbbr : List Char := ( "Art.").data

/-- Match one of the alternatives `(?:Artículo|Art\.)` at the head of
`l`, returning the remainder on success. -/
def stripMarker (l : List Char) : Option (List Char) :=
  if startsWith artFull l then some (l.drop artFull.length)
  else if startsWith artAbbr l then some (l.drop artAbbr.length)
  else none

/-- The lookahead literal `(?:Artículo|Art\.) *\d+[.\s]` matches at the
head of `l`. -/
def markerNumAt (l : List Char) : Bool :=
  match stripMarker l with
  | none => false
  | some afterMarker =>
    let afterSp := afterMarker.dropWhile (fun c => c = ' ')
    let ds := afterSp.takeWhile Char.isDigit
    !ds.isEmpty &&
      (match (afterSp.drop ds.length).head? with
       | some c => c = '.' || isPySpace c
       | none => false)

/-- The lookahead `(?=(?:Artículo|Art\.) *\d+[.\s]|$)` holds at the
position whose remaining input is `l`. -/
def lookaheadHolds (l : List Char) : Bool :=
  markerNumAt l || l.isEmpty || l = ['\n']

/-- The lazy body `(.*?)` : consume characters until the first position
where the lookahead holds, returning the body and the remainder. -/
def takeBody : List Char → List Char × List Char
  | [] => ([], [])
  | c :: cs =>
    if lookaheadHolds (c :: cs) then ([], c :: cs)
    else
      let r := takeBody cs
      (c :: r.1, r.2)

/-- Attempt the whole article pattern at the head of `l`; on success
return the captured digit group, the captured body, and the input
remaining after the match. -/
def matchArticleAt (l : List Char) : Option (List Char × List Char × List Char) :=
  match stripMarker l with
  | none => none
  | some afterMarker =>
    let afterSp := afterMarker.dropWhile (fun c => c = ' ')
    let ds := afterSp.takeWhile Char.isDigit
    if ds.isEmpty then none
    else
      let afterDs := afterSp.drop ds.length
      let seps := afterDs.takeWhile (fun c => c = '.' || isPySpace c)
      if seps.isEmpty then none
      else
        let r := takeBody (afterDs.drop seps.length)
        some (ds, r.1, r.2)

/-- `re.finditer` driver: scan left to right; on a match resume after the
matched text, otherwise advance one character.  `fuel` bounds the number
of scan steps; every step strictly shortens the input, so an initial fuel
of the input length is sufficient. -/
def scanArticlesAux : Nat → List Char → List (List Char × List Char)
  | 0, _ => []
  | _, [] => []
  | fuel + 1, c :: cs =>
    match matchArticleAt (c :: cs) with
    | some (ds, body, rest) => (ds, body) :: scanArticlesAux fuel rest
    | none => scanArticlesAux fuel cs

/-- `extract_article_with_context`: one `(number, content)` pair per
regex match, in document order, where the content is rebuilt as
`f"Artículo {article_num}. {content}"` from the stripped body. -/
def extract_article_with_context (text : List Char) : List (List Char × List Char) :=
  (scanArticlesAux text.length text).map
    (fun m => (m.1, ( "Artículo ").data ++ m.1 ++ ( ". ").data ++ pyStrip m.2))

/-! ## Document Builder — `extract_text_from_folder`
(src/extract_documents.py lines 71-173) -/

/-- `content_type` metadata value: `'article'` or `'general'`. -/
inductive ContentType where
  | article
  | general
deriving DecidableEq

/-- The langchain `Document` as populated by the builder: `page_content`
plus the metadata keys written in `extract_text_from_folder`. -/
structure Document where
  page_content : List Char
  content_type : ContentType
  article_number : Option (List Char)
  source : String
  file_path : String
  page : Option Nat
deriving DecidableEq

/-- A default `Document` value (used only to take the head of a computed
list in concrete instantiations). -/
def defaultDoc : Document :=
  { page_content := [], content_type := ContentType.general,
    article_number := none, source := "", file_path := "", page := none }

/-- The article page-attribution loop (src/extract_documents.py lines
111-116), modelled exactly as written:

  page_num = None
  for page_num, page_text in page_texts.items():
      if article_content in clean_text(page_text):
          break

The `for` target rebinds `page_num` on every iteration, so after a loop
that never breaks the variable holds the LAST page key, not `None`; the
initial `None` survives only when `page_texts` is empty.  `searchLoopA`
returns the key of the first matching page, or the last key when no page
matches. -/
def searchLoopA (content : List Char) : List (Nat × List Char) → Nat
  | [] => 0
  | [(i, _)] => i
  | (i, t) :: p :: rest =>
    if containsSub content (clean_text t) then i
    else searchLoopA content (p :: rest)

/-- The value of `page_num` after the article attribution loop. -/
def articlePage (page_texts : List (Nat × List Char)) (content : List Char) :
    Option Nat :=
  match page_texts with
  | [] => none
  | p :: rest => some (searchLoopA content (p :: rest))

/-- The chunk page-attribution loop (src/extract_documents.py lines
151-155), which uses a separate loop variable `pnum` and assigns
`page_num` only inside the `if`, so a full miss leaves `None`. -/
def chunkPage (page_texts : List (Nat × List Char)) (chunk : List Char) :
    Option Nat :=
  (page_texts.find? (fun p => containsSub chunk (clean_text p.2))).map Prod.fst

/-- Worker for `removeAll`: at each position, if the (non-empty) pattern
matches, skip it and continue after it, else keep the character.  Every
step consumes at least one input character, so an initial fuel of the
input length is sufficient. -/
def removeAllGo (pat : List Char) : Nat → List Char → List Char
  | 0, l => l
  | _, [] => []
  | fuel + 1, c :: cs =>
    if startsWith pat (c :: cs) then
      removeAllGo pat fuel (cs.drop (pat.length - 1))
    else c :: removeAllGo pat fuel cs

/-- Python `text.replace(pat, '')`: delete every occurrence of `pat`,
scanning left to right without overlap.  (With an empty pattern Python
returns the text unchanged when the replacement is empty; article
contents are never empty.) -/
def removeAll (pat text : List Char) : List Char :=
  if pat = [] then text else removeAllGo pat text.length text

/-- The chunk storage step (src/extract_documents.py lines 146-166):
chunks whose stripped length is below 100 are skipped; the rest become
`general` Documents with best-effort page attribution. -/
def buildGeneralUnits (source fpath : String) (page_texts : List (Nat × List Char))
    (chunks : List (List Char)) : List Document :=
  chunks.filterMap (fun ch =>
    if (pyStrip ch).length < 100 then none
    else some
      { page_content := ch, content_type := ContentType.general,
        article_number := none, source := source, file_path := fpath,
        page := chunkPage page_texts ch })

/-- Decimal numeral of a page index. -/
def natChars (n : Nat) : List Char := (toString n).data

/-- One page's contribution to `full_text`:
`f"\n[PÁGINA {i}]\n{page_text}"`. -/
def pageBlock (i : Nat) (t : List Char) : List Char :=
  ( "\n[PÁGINA ").data ++ natChars i ++ ( "]\n").data ++ t

/-- The per-file `try:` body (src/extract_documents.py lines 83-166),
with the external langchain splitter passed in as `splitText`.  Pages
are numbered from 1; pages whose extracted text is `None` or empty are
skipped (`if page_text:`). -/
def processPdf (splitText : List Char → List (List Char))
    (filename fpath : String) (pages : List (Option (List Char))) : List Document :=
  let page_texts : List (Nat × List Char) :=
    (pages.enum).filterMap (fun p =>
      match p.2 with
      | none => none
      | some t => if t = [] then none else some (p.1 + 1, t))
  let full_text : List Char :=
    (page_texts.map (fun p => pageBlock p.1 p.2)).flatten
  let cleaned := clean_text full_text
  let articles := extract_article_with_context cleaned
  let articleDocs : List Document :=
    articles.map (fun a =>
      { page_content := a.2, content_type := ContentType.article,
        article_number := some a.1, source := filename, file_path := fpath,
        page := articlePage page_texts a.2 })
  let residual := articles.foldl (fun t a => removeAll a.2 t) cleaned
  articleDocs ++ buildGeneralUnits filename fpath page_texts (splitText residual)

/-- `extract_text_from_folder`: iterate the folder's PDF files in listing
order; a file whose open/parse fails (`Except.error`) is logged and
skipped (`except … continue`), a successful file contributes its
documents in order. -/
def extract_text_from_folder (splitText : List Char → List (List Char))
    (folder : List (String × Except String (List (Option (List Char))))) :
    List Document :=
  match folder with
  | [] => []
  | f :: rest =>
    (match f.2 with
     | Except.error _ => []
     | Except.ok pages => processPdf splitText f.1 f.1 pages) ++
      extract_text_from_folder splitText rest

/-! ## Query Pipeline — `answer_query_with_context`
(src/query_handler.py lines 36-136)

Relevance scores (Python floats) are modelled as exact rationals; the
threshold literals `0.03` and `0.05` become `3/100` and `1/20`. -/

/-- Filter & rank (src/query_handler.py lines 57-78): partition the
retrieved `(doc, score)` pairs by `content_type`, keep articles with
`score > 0.03` and general documents with `score > 0.05`, and
concatenate kept-articles-then-kept-general. -/
def filterRank (docs : List (Document × ℚ)) : List Document :=
  let article_docs := docs.filter
    (fun p => decide (p.1.content_type = ContentType.article))
  let general_docs := docs.filter
    (fun p => decide (¬ p.1.content_type = ContentType.article))
  (article_docs.filter (fun p => decide (mkRat 3 100 < p.2))).map Prod.fst ++
    (general_docs.filter (fun p => decide (mkRat 5 100 < p.2))).map Prod.fst

/-- `re.search(r'\[Página (\d+)\]', content)` restricted to its captured
digit group: the digits of the first bracketed page marker, if any. -/
def findPageMarker : List Char → Option (List Char)
  | [] => none
  | c :: cs =>
    if startsWith (( "[Página ").data) (c :: cs) then
      let r := (c :: cs).drop 8
      let ds := r.takeWhile Char.isDigit
      if !ds.isEmpty && (r.drop ds.length).head? = some ']' then some ds
      else findPageMarker cs
    else findPageMarker cs

/-- Length of a `\[Página \d+\]` match at the head of `l`, if one starts
here. -/
def markerLenAt (l : List Char) : Option Nat :=
  if startsWith (( "[Página ").data) l then
    let r := l.drop 8
    let ds := r.takeWhile Char.isDigit
    if !ds.isEmpty && (r.drop ds.length).head? = some ']' then
      some (8 + ds.length + 1)
    else none
  else none

/-- Worker for `removeMarkers`; every step consumes at least one input
character, so an initial fuel of the input length is sufficient. -/
def removeMarkersAux : Nat → List Char → List Char
  | 0, l => l
  | _, [] => []
  | fuel + 1, c :: cs =>
    match markerLenAt (c :: cs) with
    | some n => removeMarkersAux fuel (cs.drop (n - 1))
    | none => c :: removeMarkersAux fuel cs

/-- `re.sub(r'\[Página \d+\]', '', content)`: delete every bracketed
page-marker token. -/
def removeMarkers (l : List Char) : List Char :=
  removeMarkersAux l.length l

/-- One context entry (src/query_handler.py lines 86-96):
`f"[Fuente: {source} - Página {page}]:\n{content}"`, where `page` is the
digit group of the first `[Página N]` token in the raw content (else
`N/A`) and the content has all `[Página N]` tokens removed and is
stripped. -/
def renderEntry (d : Document) : List Char :=
  let page := match findPageMarker d.page_content with
    | some ds => ds
    | none => ( "N/A").data
  ( "[Fuente: ").data ++ d.source.data ++ ( " - Página ").data ++ page ++
    ( "]:\n").data ++ pyStrip (removeMarkers d.page_content)

/-- Context assembly (src/query_handler.py lines 84-98): render the first
10 relevant documents and join them with blank lines. -/
def assembleContext (relevant : List Document) : List Char :=
  List.intercalate (( "\n\n").data) ((relevant.take 10).map renderEntry)

/-- Outcome of a Python call: a returned value or a raised exception
(identified by its message). -/
inductive PyResult (α : Type) where
  | ok (a : α)
  | exc (msg : List Char)
deriving DecidableEq

/-- The `try:` body of `answer_query_with_context` (src/query_handler.py
lines 44-132).  The two external calls are passed in by result:
`searchRes` models `index.similarity_search_with_relevance_scores(…, k=20)`
and `genRes` models the OpenAI chat-completion call on the assembled user
message.  Query preprocessing is pure and cannot fail, so it is absorbed
into `searchRes`. -/
def answerBody (searchRes : PyResult (List (Document × ℚ)))
    (genRes : List Char → PyResult (List Char)) (hasIndex : Bool)
    (query : List Char) : PyResult (List Char) :=
  if !hasIndex then PyResult.ok (( "La base de conocimiento no está disponible.").data)
  else
    match searchRes with
    | PyResult.exc e => PyResult.exc e
    | PyResult.ok docs =>
      if docs.isEmpty then
        PyResult.ok (( "No encontré información relevante para tu pregunta. ¿Podrías reformularla?").data)
      else
        let relevant := filterRank docs
        if relevant.isEmpty then
          PyResult.ok (( "No encontré información suficientemente relevante. ¿Podrías reformular tu pregunta?").data)
        else
          match genRes (( "Contexto:\n").data ++ assembleContext relevant ++
              ( "\n\nPregunta: ").data ++ query) with
          | PyResult.exc e => PyResult.exc e
          | PyResult.ok ans => PyResult.ok ans

/-- The message of the exception actually raised by the `except` handler:
`query_handler.py` imports `logging` but never binds a module-level
`logger`, so the handler's first statement
`logger.error(f"Error processing query: {e}")` raises `NameError` and the
`return f"Lo siento, …"` line is unreachable. -/
def nameErrorMsg : List Char := ( "NameError: name \x27logger\x27 is not defined").data

/-- `answer_query_with_context` including its `try/except` wrapper: a
body exception enters the handler, whose unbound `logger` reference
raises `NameError` out of the function. -/
def answer_query_with_context (searchRes : PyResult (List (Document × ℚ)))
    (genRes : List Char → PyResult (List Char)) (hasIndex : Bool)
    (query : List Char) : PyResult (List Char) :=
  match answerBody searchRes genRes hasIndex query with
  | PyResult.ok s => PyResult.ok s
  | PyResult.exc _ => PyResult.exc nameErrorMsg

/-! ## Index Adapter — `create_index` / `update_index`
(src/index_manager.py lines 17-55)

`index_manager.py` defines its module logger, so its `except` handlers
run to their `return` statements.  The external FAISS engine is passed
in by result: `buildRes` models `FAISS.from_documents(…)` and `addRes`
models `existing_index.add_documents(…)` (which mutates in place and
leaves the handle unchanged). -/

/-- `create_index`: empty input returns `None` without calling the
engine; an engine failure is caught and returns `None`. -/
def create_index {H : Type} (buildRes : PyResult H) (documents : List Document) :
    Option H :=
  if documents.isEmpty then none
  else
    match buildRes with
    | PyResult.ok h => some h
    | PyResult.exc _ => none

/-- `update_index`: empty additions return the existing handle; an
absent handle falls back to `create_index`; an `add_documents` failure is
caught and returns the existing handle. -/
def update_index {H : Type} (buildRes : PyResult H) (addRes : PyResult Unit)
    (existing_index : Option H) (new_documents : List Document) : Option H :=
  if new_documents.isEmpty then existing_index
  else
    match existing_index with
    | none => create_index buildRes new_documents
    | some h =>
      match addRes with
      | PyResult.ok _ => some h
      | PyResult.exc _ => some h

/-! ## Auxiliary predicates used by the theorems -/

/-- Some suffix of `l` starts with one of the article markers (exact
case). -/
def hasMarkerSub : List Char → Bool
  | [] => false
  | c :: cs =>
    startsWith artFull (c :: cs) || startsWith artAbbr (c :: cs) || hasMarkerSub cs

/-- Normal form for `re.sub(r'[ \t]+', ' ', ·)`: no tab remains and no
two consecutive spaces remain. -/
def noDoubleSpace : List Char → Bool
  | a :: b :: rest => !(a = ' ' && b = ' ') && noDoubleSpace (b :: rest)
  | _ => true

/-- No tab character occurs. -/
def tabFree (l : List Char) : Bool :=
  l.all (fun c => !(c = '\t'))

/-- Normal form for `re.sub(r'\n{3,}', '\n\n', ·)`: no three consecutive
newlines remain. -/
def noTripleNL : List Char → Bool
  | a :: b :: c :: rest =>
    !(a = '\n' && b = '\n' && c = '\n') && noTripleNL (b :: c :: rest)
  | _ => true

/-! ## Concrete data for witness instantiations -/

/-- A sample Article document. -/
def dA : Document :=
  { page_content := ( "Artículo 1. Plazo de diez días.").data,
    content_type := ContentType.article, article_number := some ( "1").data,
    source := "a.pdf", file_path := "docs/a.pdf", page := some 1 }

/-- A sample General document. -/
def dG : Document :=
  { page_content := ( "texto general de la convocatoria").data,
    content_type := ContentType.general, article_number := none,
    source := "a.pdf", file_path := "docs/a.pdf", page := none }

/-- A concrete retrieval result of 20 scored documents of mixed content
types, with scores on both sides of both thresholds. -/
def w20 : List (Document × ℚ) :=
  [(dG, mkRat 9 100), (dA, mkRat 2 100), (dA, mkRat 4 100),
   (dG, mkRat 5 100), (dA, mkRat 1 2)] ++ List.replicate 15 (dG, mkRat 1 100)

/-- A degenerate external splitter (used where a splitter is needed but
its output is irrelevant). -/
def trivialSplitter : List Char → List (List Char) :=
  fun _ => []

/-- An external splitter returning the whole residual text as one chunk. -/
def oneChunkSplitter : List Char → List (List Char) :=
  fun t => [t]

/-- A 100-character page text with no article markers. -/
def page100 : List Char := List.replicate 100 'a'

/-- A document whose content carries a token of the exact form the query
handler's regex `\[Página (\d+)\]` matches. -/
def dM : Document :=
  { page_content := ( "[Página 3] contenido del fragmento").data,
    content_type := ContentType.general, article_number := none,
    source := "a.pdf", file_path := "docs/a.pdf", page := some 3 }

/-- A document whose content carries a page marker as the Document
Builder actually leaves it after normalization: `clean_text` deletes the
brackets of the inserted `\n[PÁGINA 3]\n…`, leaving the unbracketed
uppercase `PÁGINA 3`. -/
def dB : Document :=
  { page_content := clean_text (pageBlock 3 ( "texto de la página tres").data),
    content_type := ContentType.general, article_number := none,
    source := "a.pdf", file_path := "docs/a.pdf", page := some 3 }

/-! ## Theorems for the claims -/

/-- C1: for every list of 20 retrieved `(unit, score)` pairs of mixed
content types, the filter-and-rank step keeps an Article entry iff its
score is strictly greater than 0.03, keeps a General entry iff its score
is strictly greater than 0.05, every kept Article entry precedes every
kept General entry regardless of relative score, and within each type
the original retrieval order is preserved.  Formalised as: the relevant
list is exactly the order-preserving filter of the Article entries with
score above 3/100, concatenated with the order-preserving filter of the
non-Article entries with score above 5/100; plus the resulting
membership characterisation. -/
theorem C1_filter_and_rank (docs : List (Document × ℚ)) (_h : docs.length = 20) :
    (mkRat 3 100 : ℚ) = 3/100 ∧ (mkRat 5 100 : ℚ) = 5/100 ∧
    filterRank docs =
      (docs.filter (fun p => decide (p.1.content_type = ContentType.article) &&
        decide (mkRat 3 100 < p.2))).map Prod.fst ++
      (docs.filter (fun p => decide (¬ p.1.content_type = ContentType.article) &&
        decide (mkRat 5 100 < p.2))).map Prod.fst ∧
    ∀ d : Document, d ∈ filterRank docs ↔
      ∃ s : ℚ, (d, s) ∈ docs ∧
        ((d.content_type = ContentType.article ∧ mkRat 3 100 < s) ∨
         (¬ d.content_type = ContentType.article ∧ mkRat 5 100 < s)) := by
  refine ⟨by norm_num [mkRat], by norm_num [mkRat], ?_, ?_⟩
  · simp only [filterRank, List.filter_filter, Bool.and_comm]
  · intro d
    simp only [filterRank, List.mem_append, List.mem_map, List.mem_filter,
      decide_eq_true_eq]
    constructor
    · rintro (⟨⟨a, s⟩, ⟨⟨hmem, hart⟩, hsc⟩, rfl⟩ | ⟨⟨a, s⟩, ⟨⟨hmem, hart⟩, hsc⟩, rfl⟩)
      · exact ⟨s, hmem, Or.inl ⟨hart, hsc⟩⟩
      · exact ⟨s, hmem, Or.inr ⟨hart, hsc⟩⟩
    · rintro ⟨s, hmem, (⟨hart, hsc⟩ | ⟨hart, hsc⟩)⟩
      · exact Or.inl ⟨(d, s), ⟨⟨hmem, hart⟩, hsc⟩, rfl⟩
      · exact Or.inr ⟨(d, s), ⟨⟨hmem, hart⟩, hsc⟩, rfl⟩

/-- Witness for C1 at a concrete mixed list of 20 scored documents. -/
theorem C1_filter_and_rank_witness :
    w20.length = 20 ∧
    ((mkRat 3 100 : ℚ) = 3/100 ∧ (mkRat 5 100 : ℚ) = 5/100 ∧
    filterRank w20 =
      (w20.filter (fun p => decide (p.1.content_type = ContentType.article) &&
        decide (mkRat 3 100 < p.2))).map Prod.fst ++
      (w20.filter (fun p => decide (¬ p.1.content_type = ContentType.article) &&
        decide (mkRat 5 100 < p.2))).map Prod.fst ∧
    ∀ d : Document, d ∈ filterRank w20 ↔
      ∃ s : ℚ, (d, s) ∈ w20 ∧
        ((d.content_type = ContentType.article ∧ mkRat 3 100 < s) ∨
         (¬ d.content_type = ContentType.article ∧ mkRat 5 100 < s))) :=
  ⟨by decide, C1_filter_and_rank w20 (by decide)⟩

/-- C2 (code bug): the claim says every failure inside the answer
operation is caught and converted to a user-facing error string embedding
the failure detail.  The `except` handler in `query_handler.py` indeed
intends this (`return f"Lo siento, ocurrió un error al procesar tu
consulta: {str(e)}"`), but its first statement references the module
variable `logger`, which `query_handler.py` never defines (it imports
`logging` but, unlike `extract_documents.py` and `index_manager.py`,
never calls `logging.getLogger`).  The handler therefore raises
`NameError` and the exception propagates to the caller.  This theorem
evaluates the model at a failing input: the external generation call
raises, and the operation returns the propagated `NameError`, not the
apologetic string. -/
theorem C2_error_path_raises :
    answer_query_with_context (PyResult.ok [(dA, mkRat 1 10)])
        (fun _ => PyResult.exc ( "APIConnectionError").data) true ( "q").data =
      PyResult.exc nameErrorMsg ∧
    ∀ s : List Char,
      answer_query_with_context (PyResult.ok [(dA, mkRat 1 10)])
          (fun _ => PyResult.exc ( "APIConnectionError").data) true ( "q").data ≠
        PyResult.ok s := by
  have h1 : answer_query_with_context (PyResult.ok [(dA, mkRat 1 10)])
      (fun _ => PyResult.exc ( "APIConnectionError").data) true ( "q").data =
      PyResult.exc nameErrorMsg := by decide
  refine ⟨h1, fun s hs => ?_⟩
  rw [h1] at hs
  exact PyResult.noConfusion hs

/-- C3 (code bug): the claim says an article whose exact content string
is contained in no per-page normalized text (with at least one page
present) gets `page = None`.  The source initialises `page_num = None`
for exactly this fallback, but then reuses `page_num` as the `for` loop
target (`for page_num, page_text in page_texts.items():`), so after a
loop that never breaks the variable holds the last page key; the parallel
chunk-attribution loop a few lines below uses a separate variable `pnum`
and implements the intended fallback correctly.  This theorem evaluates
the model at a failing input: one page whose normalized text does not
contain the article content, where the code yields `some 1` instead of
`none`. -/
theorem C3_page_fallback_broken :
    containsSub ( "Artículo 1. hello").data (clean_text ( "zzzz").data) = false ∧
    articlePage [(1, ( "zzzz").data)] ( "Artículo 1. hello").data = some 1 ∧
    articlePage [(1, ( "zzzz").data)] ( "Artículo 1. hello").data ≠ none := by
  refine ⟨by decide, by decide, fun hc => ?_⟩
  have h1 : articlePage [(1, ( "zzzz").data)] ( "Artículo 1. hello").data =
      some 1 := by decide
  rw [h1] at hc
  exact Option.noConfusion hc

/-- Auxiliary for C5: the scanner finds nothing in a text none of whose
suffixes starts with an exact-case marker. -/
theorem scanArticlesAux_eq_nil_of_no_marker :
    ∀ fuel l, hasMarkerSub l = false → scanArticlesAux fuel l = [] := by
  intro fuel
  induction fuel with
  | zero => intro l _; cases l <;> rfl
  | succ n ih =>
    intro l h
    cases l with
    | nil => rfl
    | cons c cs =>
      simp only [hasMarkerSub, Bool.or_eq_false_iff] at h
      obtain ⟨⟨h1, h2⟩, h3⟩ := h
      have hm : matchArticleAt (c :: cs) = none := by
        simp [matchArticleAt, stripMarker, h1, h2]
      simp only [scanArticlesAux, hm]
      exact ih cs h3

/-- C5 (corrected): the claim says the article marker keyword is matched
case-insensitively, so that `"ARTÍCULO 5."` or `"artículo 5."` segment
like `"Artículo 5."`.  The source regex is compiled with `re.DOTALL`
only — no `re.IGNORECASE` — so matching is case-sensitive.  Amended
claim: the segmenter matches the marker keywords exactly as written;
any text containing no exact-case occurrence of `"Artículo"` or
`"Art."` yields no units at all (so differently-cased headings are not
segmented). -/
theorem C5_marker_case_sensitive (text : List Char)
    (h : hasMarkerSub text = false) :
    extract_article_with_context text = [] := by
  simp [extract_article_with_context,
    scanArticlesAux_eq_nil_of_no_marker text.length text h]

/-- Witness for C5 at the uppercased heading `"ARTÍCULO 5. Cuerpo"`. -/
theorem C5_marker_case_sensitive_witness :
    hasMarkerSub ( "ARTÍCULO 5. Cuerpo").data = false ∧
    extract_article_with_context ( "ARTÍCULO 5. Cuerpo").data = [] :=
  ⟨by decide, C5_marker_case_sensitive (( "ARTÍCULO 5. Cuerpo").data) (by decide)⟩

/-- Counterexample for C5 as stated: the canonically-cased heading
segments to one unit, while the upper- and lower-cased variants of the
same heading segment to none, so a heading differing only in letter case
is NOT segmented the same. -/
theorem C5_counterexample :
    extract_article_with_context ( "Artículo 5. Cuerpo").data =
      [(( "5").data, ( "Artículo 5. Cuerpo").data)] ∧
    extract_article_with_context ( "ARTÍCULO 5. Cuerpo").data = [] ∧
    extract_article_with_context ( "artículo 5. Cuerpo").data = [] := by
  refine ⟨by decide, by decide, by decide⟩

/-- C6: on `"Artículo 7. Body text. Artículo 8. More text."` the
segmenter returns exactly two units, in document order, with numbers
`"7"` and `"8"`, whose contents start with `"Artículo 7."` and
`"Artículo 8."` respectively, and the first unit's content does not
extend into the second article's marker. -/
theorem C6_two_units :
    extract_article_with_context
        ( "Artículo 7. Body text. Artículo 8. More text.").data =
      [(( "7").data, ( "Artículo 7. Body text.").data),
       (( "8").data, ( "Artículo 8. More text.").data)] ∧
    startsWith ( "Artículo 7.").data
      ((extract_article_with_context
        ( "Artículo 7. Body text. Artículo 8. More text.").data).headD
          ([], [])).2 = true ∧
    startsWith ( "Artículo 8.").data
      (((extract_article_with_context
        ( "Artículo 7. Body text. Artículo 8. More text.").data).getD 1
          ([], [])).2) = true ∧
    containsSub ( "Artículo 8").data
      ((extract_article_with_context
        ( "Artículo 7. Body text. Artículo 8. More text.").data).headD
          ([], [])).2 = false := by
  refine ⟨by decide, by decide, by decide, by decide⟩

/-- Auxiliary: `dropTrailing` never lengthens a list. -/
theorem dropTrailing_length_le (p : Char → Bool) :
    ∀ l : List Char, (dropTrailing p l).length ≤ l.length := by
  intro l
  induction l with
  | nil => exact Nat.le_refl _
  | cons c cs ih =>
    simp only [dropTrailing]
    split
    · exact Nat.zero_le _
    · simpa using ih

/-- Auxiliary: `dropWhile` never lengthens a list. -/
theorem dropWhile_length_le (p : Char → Bool) :
    ∀ l : List Char, (l.dropWhile p).length ≤ l.length := by
  intro l
  induction l with
  | nil => exact Nat.le_refl _
  | cons c cs ih =>
    simp only [List.dropWhile_cons]
    split
    · exact Nat.le_succ_of_le ih
    · exact Nat.le_refl _

/-- Auxiliary: stripping never lengthens a list. -/
theorem pyStrip_length_le (l : List Char) : (pyStrip l).length ≤ l.length :=
  Nat.le_trans (dropTrailing_length_le _ _) (dropWhile_length_le _ _)

/-- C7: the Document Builder never stores a chunk whose trimmed length is
below 100 characters, so every General unit produced for a file has
stripped content length at least 100 (and hence raw content length at
least 100). -/
theorem C7_general_units_min_length
    (splitText : List Char → List (List Char)) (fn fp : String)
    (pages : List (Option (List Char))) (u : Document)
    (hmem : u ∈ processPdf splitText fn fp pages)
    (hgen : u.content_type = ContentType.general) :
    100 ≤ (pyStrip u.page_content).length ∧ 100 ≤ u.page_content.length := by
  simp only [processPdf, List.mem_append] at hmem
  rcases hmem with hart | hgenmem
  · obtain ⟨a, -, rfl⟩ := List.mem_map.mp hart
    simp at hgen
  · obtain ⟨ch, -, hch⟩ := List.mem_filterMap.mp hgenmem
    by_cases hlen : (pyStrip ch).length < 100
    · rw [if_pos hlen] at hch
      exact Option.noConfusion hch
    · rw [if_neg hlen] at hch
      obtain rfl := Option.some.inj hch
      refine ⟨Nat.le_of_not_lt hlen, ?_⟩
      exact Nat.le_trans (Nat.le_of_not_lt hlen) (pyStrip_length_le ch)

/-- Witness for C7: a single page of 100 characters, split into one
chunk, produces a General unit of content length at least 100. -/
theorem C7_general_units_min_length_witness :
    100 ≤ (pyStrip ((processPdf oneChunkSplitter "a.pdf" "docs/a.pdf"
      [some page100]).headD defaultDoc).page_content).length ∧
    100 ≤ ((processPdf oneChunkSplitter "a.pdf" "docs/a.pdf"
      [some page100]).headD defaultDoc).page_content.length :=
  C7_general_units_min_length oneChunkSplitter "a.pdf" "docs/a.pdf"
    [some page100] _
    (by set_option maxRecDepth 100000 in decide)
    (by set_option maxRecDepth 100000 in decide)

/-- C8: each PDF is processed independently: a file whose open/parse
fails contributes nothing while the files before and after it contribute
normally; a folder with zero PDFs yields the empty sequence; a folder
all of whose PDFs fail yields the empty sequence.  No case raises. -/
theorem C8_per_file_isolation
    (splitText : List Char → List (List Char)) (name err : String)
    (pre post folder : List (String × Except String (List (Option (List Char)))))
    (hall : ∀ f ∈ folder, ∃ e, f.2 = Except.error e) :
    extract_text_from_folder splitText
        (pre ++ (name, Except.error err) :: post) =
      extract_text_from_folder splitText pre ++
        extract_text_from_folder splitText post ∧
    extract_text_from_folder splitText [] = [] ∧
    extract_text_from_folder splitText folder = [] := by
  refine ⟨?_, rfl, ?_⟩
  · induction pre with
    | nil => simp [extract_text_from_folder]
    | cons f rest ih =>
      simp only [List.cons_append, extract_text_from_folder]
      rw [show rest.append ((name, Except.error err) :: post) =
        rest ++ (name, Except.error err) :: post from rfl, ih,
        List.append_assoc]
  · induction folder with
    | nil => rfl
    | cons f rest ih =>
      obtain ⟨e, he⟩ := hall f (List.mem_cons_self f rest)
      have hrest : extract_text_from_folder splitText rest = [] :=
        ih (fun g hg => hall g (List.mem_cons_of_mem f hg))
      simp [extract_text_from_folder, he, hrest]

/-- Witness for C8: a good file followed by a corrupt file, and a folder
whose single file is corrupt. -/
theorem C8_per_file_isolation_witness :
    extract_text_from_folder trivialSplitter
        ([("g.pdf", Except.ok [some page100])] ++
          ("b.pdf", Except.error "corrupt") :: []) =
      extract_text_from_folder trivialSplitter
          [("g.pdf", Except.ok [some page100])] ++
        extract_text_from_folder trivialSplitter [] ∧
    extract_text_from_folder trivialSplitter
      ([] : List (String × Except String (List (Option (List Char))))) = [] ∧
    extract_text_from_folder trivialSplitter
      [("x.pdf", Except.error "bad")] = [] :=
  C8_per_file_isolation trivialSplitter "b.pdf" "corrupt"
    [("g.pdf", Except.ok [some page100])] []
    [("x.pdf", Except.error "bad")]
    (fun f hf => by
      simp only [List.mem_singleton] at hf
      exact ⟨"bad", by rw [hf]⟩)

/-- C10: index construction and update absorb engine failures: on a
non-empty document list whose embedding/index build fails,
`create_index` returns `none` instead of raising; on a failure while
adding documents to an existing index, `update_index` returns the
previously existing handle; and when no index existed and the fallback
build fails, `update_index` returns `none` — the previous (absent)
handle.  All paths return a value; none raises. -/
theorem C10_index_failures_absorbed (H : Type) (e₁ e₂ e₃ : List Char)
    (hnd : H) (br : PyResult H) (docs nd : List Document)
    (hdocs : docs ≠ []) (hnd2 : nd ≠ []) :
    create_index (H := H) (PyResult.exc e₁) docs = none ∧
    update_index br (PyResult.exc e₂) (some hnd) nd = some hnd ∧
    update_index (H := H) (PyResult.exc e₃) (PyResult.ok ()) none nd = none := by
  refine ⟨?_, ?_, ?_⟩
  · cases docs with
    | nil => exact absurd rfl hdocs
    | cons d ds => simp [create_index]
  · cases nd with
    | nil => simp [update_index]
    | cons d ds => simp [update_index]
  · cases nd with
    | nil => exact absurd rfl hnd2
    | cons d ds => simp [update_index, create_index]

/-- Witness for C10 at concrete handles and document lists. -/
theorem C10_index_failures_absorbed_witness :
    create_index (H := Nat) (PyResult.exc ( "APIError").data) [dA] = none ∧
    update_index (PyResult.ok 7) (PyResult.exc ( "APIError").data)
      (some 7) [dG] = some 7 ∧
    update_index (H := Nat) (PyResult.exc ( "APIError").data)
      (PyResult.ok ()) none [dG] = none :=
  C10_index_failures_absorbed Nat ( "APIError").data ( "APIError").data
    ( "APIError").data 7 (PyResult.ok 7) [dA] [dG]
    (by decide) (by decide)

/-- C9 (corrected): context assembly uses exactly the first 10 entries
of the type-ordered relevant list (not re-sorted by score), removes
tokens of the exact bracketed form `[Página N]` from each entry's
content, and renders each entry as a `[Fuente: {source} - Página
{page}]:` header line followed by the content, entries joined by blank
lines.  The claim's parenthetical — that the removed tokens include the
markers the Document Builder inserted — does not hold (see the
counterexample): after normalization those markers read `PÁGINA N`
without brackets, which the removal regex does not match.  The second
conjunct demonstrates the exact rendering on a two-entry list: the
bracketed token of `dM` is stripped and provides the header page, while
the builder-style marker of `dB` is left in place and its header page
falls back to `N/A`. -/
theorem C9_context_assembly (docs : List Document) :
    assembleContext docs = assembleContext (docs.take 10) ∧
    assembleContext [dM, dB] =
      ( "[Fuente: a.pdf - Página 3]:\ncontenido del fragmento\n\n[Fuente: a.pdf - Página N/A]:\nPÁGINA 3\ntexto de la página tres").data := by
  constructor
  · simp [assembleContext, List.take_take]
  · set_option maxRecDepth 100000 in decide

/-- Counterexample for C9 as stated: for a unit whose content carries
the page marker in the form the Document Builder actually produces
(`PÁGINA 3`, brackets lost to normalization), the assembled context
still embeds the marker text — it is not stripped — and the marker is
not even recognised for the header (the page reads `N/A`). -/
theorem C9_counterexample :
    containsSub ( "PÁGINA 3").data dB.page_content = true ∧
    containsSub ( "PÁGINA 3").data (assembleContext [dB]) = true ∧
    containsSub ( "Página N/A").data (assembleContext [dB]) = true ∧
    findPageMarker dB.page_content = none := by
  set_option maxRecDepth 100000 in
  refine ⟨by decide, by decide, by decide, by decide⟩

/-! ## Normal-form lemmas for the `clean_text` rewriting passes
(used to settle the idempotence claim) -/

/-- `noDoubleSpace` passes to the tail. -/
theorem nds_tail {c : Char} {cs : List Char}
    (h : noDoubleSpace (c :: cs) = true) : noDoubleSpace cs = true := by
  cases cs with
  | nil => rfl
  | cons d ds =>
    simp only [noDoubleSpace, Bool.and_eq_true] at h
    exact h.2

/-- `noTripleNL` passes to the tail. -/
theorem ntn_tail {c : Char} {cs : List Char}
    (h : noTripleNL (c :: cs) = true) : noTripleNL cs = true := by
  cases cs with
  | nil => rfl
  | cons d ds =>
    cases ds with
    | nil => rfl
    | cons e es =>
      simp only [noTripleNL, Bool.and_eq_true] at h
      exact h.2

/-- Extend a `noDoubleSpace` list by a head whose pair with the next
element is not two spaces. -/
theorem nds_cons {a : Char} {m : List Char} (hm : noDoubleSpace m = true)
    (hhead : ∀ x, m.head? = some x → ¬(a = ' ' ∧ x = ' ')) :
    noDoubleSpace (a :: m) = true := by
  cases m with
  | nil => rfl
  | cons b t =>
    have hb := hhead b rfl
    simp only [noDoubleSpace, Bool.and_eq_true, Bool.not_eq_true',
      Bool.and_eq_false_iff, decide_eq_false_iff_not]
    refine ⟨?_, hm⟩
    by_cases ha : a = ' '
    · exact Or.inr (fun hb2 => hb ⟨ha, hb2⟩)
    · exact Or.inl ha

/-- Extend a `noTripleNL` list by a head when the first window is not
three newlines. -/
theorem ntn_cons {a b : Char} {m : List Char} (hm : noTripleNL (b :: m) = true)
    (hwin : a ≠ '\n' ∨ b ≠ '\n' ∨ ∀ x, m.head? = some x → x ≠ '\n') :
    noTripleNL (a :: b :: m) = true := by
  cases m with
  | nil => rfl
  | cons e es =>
    simp only [noTripleNL, Bool.and_eq_true, Bool.not_eq_true',
      Bool.and_eq_false_iff, decide_eq_false_iff_not]
    refine ⟨?_, hm⟩
    rcases hwin with h | h | h
    · exact Or.inl (Or.inl h)
    · exact Or.inl (Or.inr h)
    · exact Or.inr (h e rfl)

/-- Extend a `noTripleNL` list by a non-newline head. -/
theorem ntn_cons1 {a : Char} {m : List Char} (hm : noTripleNL m = true)
    (ha : a ≠ '\n') : noTripleNL (a :: m) = true := by
  cases m with
  | nil => rfl
  | cons b t => exact ntn_cons hm (Or.inl ha)

/-- Head of a `dropWhile` result fails the predicate. -/
theorem dw_head {p : Char → Bool} :
    ∀ {l : List Char} {x : Char}, (l.dropWhile p).head? = some x → p x = false := by
  intro l
  induction l with
  | nil => intro x h; exact Option.noConfusion h
  | cons c cs ih =>
    intro x h
    by_cases hc : p c
    · rw [List.dropWhile_cons_of_pos hc] at h
      exact ih h
    · rw [List.dropWhile_cons_of_neg hc] at h
      obtain rfl := Option.some.inj h
      exact Bool.of_not_eq_true hc

/-- `dropWhile` is the identity when the head already fails the
predicate. -/
theorem dw_fix {p : Char → Bool} {l : List Char}
    (h : ∀ x, l.head? = some x → p x = false) : l.dropWhile p = l := by
  cases l with
  | nil => rfl
  | cons c cs =>
    have := h c rfl
    rw [List.dropWhile_cons_of_neg (by simp [this])]

/-- `dropTrailing` keeps the head of a non-trivial list. -/
theorem dt_head (p : Char → Bool) (l : List Char) :
    dropTrailing p l = [] ∨ (dropTrailing p l).head? = l.head? := by
  cases l with
  | nil => exact Or.inl rfl
  | cons c cs =>
    simp only [dropTrailing]
    split
    · exact Or.inl rfl
    · exact Or.inr rfl

/-- `dropTrailing` is idempotent. -/
theorem dt_idem (p : Char → Bool) :
    ∀ l : List Char, dropTrailing p (dropTrailing p l) = dropTrailing p l := by
  intro l
  induction l with
  | nil => rfl
  | cons c cs ih =>
    simp only [dropTrailing]
    split
    · rfl
    · rename_i hcond
      simp only [dropTrailing, ih]
      rw [if_neg hcond]

/-- `dropTrailing` yields an initial segment: it equals a `take`. -/
theorem dt_eq_take (p : Char → Bool) :
    ∀ l : List Char, ∃ n, dropTrailing p l = l.take n := by
  intro l
  induction l with
  | nil => exact ⟨0, rfl⟩
  | cons c cs ih =>
    obtain ⟨n, hn⟩ := ih
    simp only [dropTrailing]
    split
    · exact ⟨0, rfl⟩
    · exact ⟨n + 1, by rw [List.take_succ_cons, hn]⟩

/-- `pyStrip` is idempotent. -/
theorem pyStrip_idem (l : List Char) : pyStrip (pyStrip l) = pyStrip l := by
  unfold pyStrip
  have hdw : (dropTrailing isPySpace (l.dropWhile isPySpace)).dropWhile isPySpace =
      dropTrailing isPySpace (l.dropWhile isPySpace) := by
    apply dw_fix
    intro x hx
    rcases dt_head isPySpace (l.dropWhile isPySpace) with h | h
    · rw [h] at hx
      exact Option.noConfusion hx
    · rw [h] at hx
      exact dw_head hx
  rw [hdw, dt_idem]

/-- Membership after `dropTrailing` implies membership before. -/
theorem mem_dropTrailing {p : Char → Bool} {x : Char} :
    ∀ {l : List Char}, x ∈ dropTrailing p l → x ∈ l := by
  intro l
  induction l with
  | nil => intro h; exact absurd h (List.not_mem_nil x)
  | cons c cs ih =>
    intro h
    simp only [dropTrailing] at h
    split at h
    · exact absurd h (List.not_mem_nil x)
    · rcases List.mem_cons.mp h with rfl | hmem
      · exact List.mem_cons_self _ _
      · exact List.mem_cons_of_mem _ (ih hmem)

/-- Membership after `dropWhile` implies membership before. -/
theorem mem_dropWhile {p : Char → Bool} {x : Char} :
    ∀ {l : List Char}, x ∈ l.dropWhile p → x ∈ l := by
  intro l
  induction l with
  | nil => intro h; exact h
  | cons c cs ih =>
    intro h
    by_cases hc : p c
    · rw [List.dropWhile_cons_of_pos hc] at h
      exact List.mem_cons_of_mem _ (ih h)
    · rwa [List.dropWhile_cons_of_neg hc] at h

/-- Membership after `pyStrip` implies membership before. -/
theorem mem_pyStrip {x : Char} {l : List Char} (h : x ∈ pyStrip l) : x ∈ l :=
  mem_dropWhile (mem_dropTrailing h)

/-- Every character of a `cwsAux` output is a space or an input
character. -/
theorem mem_cwsAux {x : Char} :
    ∀ {b : Bool} {l : List Char}, x ∈ cwsAux b l → x = ' ' ∨ x ∈ l := by
  intro b l
  induction l generalizing b with
  | nil => intro h; exact absurd h (List.not_mem_nil x)
  | cons c cs ih =>
    intro h
    simp only [cwsAux] at h
    split at h
    · split at h
      · rcases ih h with h1 | h1
        · exact Or.inl h1
        · exact Or.inr (List.mem_cons_of_mem _ h1)
      · rcases List.mem_cons.mp h with rfl | hmem
        · exact Or.inl rfl
        · rcases ih hmem with h1 | h1
          · exact Or.inl h1
          · exact Or.inr (List.mem_cons_of_mem _ h1)
    · rcases List.mem_cons.mp h with rfl | hmem
      · exact Or.inr (List.mem_cons_self _ _)
      · rcases ih hmem with h1 | h1
        · exact Or.inl h1
        · exact Or.inr (List.mem_cons_of_mem _ h1)

/-- Every character of a `cnlAux` output is a newline or an input
character. -/
theorem mem_cnlAux {x : Char} :
    ∀ {k : Nat} {l : List Char}, x ∈ cnlAux k l → x = '\n' ∨ x ∈ l := by
  intro k l
  induction l generalizing k with
  | nil => intro h; exact absurd h (List.not_mem_nil x)
  | cons c cs ih =>
    intro h
    simp only [cnlAux] at h
    split at h
    · split at h
      · rcases List.mem_cons.mp h with rfl | hmem
        · exact Or.inl rfl
        · rcases ih hmem with h1 | h1
          · exact Or.inl h1
          · exact Or.inr (List.mem_cons_of_mem _ h1)
      · rcases ih h with h1 | h1
        · exact Or.inl h1
        · exact Or.inr (List.mem_cons_of_mem _ h1)
    · rcases List.mem_cons.mp h with rfl | hmem
      · exact Or.inr (List.mem_cons_self _ _)
      · rcases ih hmem with h1 | h1
        · exact Or.inl h1
        · exact Or.inr (List.mem_cons_of_mem _ h1)

/-- Every character of a `replFF` output is a newline or an input
character. -/
theorem mem_replFF {x : Char} {l : List Char} (h : x ∈ replFF l) :
    x = '\n' ∨ x ∈ l := by
  simp only [replFF, List.mem_flatMap] at h
  obtain ⟨c, hc, hx⟩ := h
  by_cases hcf : c = Char.ofNat 12
  · rw [if_pos hcf] at hx
    rcases List.mem_cons.mp hx with rfl | hx2
    · exact Or.inl rfl
    · rcases List.mem_cons.mp hx2 with rfl | hx3
      · exact Or.inl rfl
      · exact absurd hx3 (List.not_mem_nil x)
  · rw [if_neg hcf] at hx
    rcases List.mem_cons.mp hx with rfl | hx2
    · exact Or.inr hc
    · exact absurd hx2 (List.not_mem_nil x)

/-- `replFF` leaves no form feed behind. -/
theorem ff_not_mem_replFF (l : List Char) : Char.ofNat 12 ∉ replFF l := by
  intro h
  simp only [replFF, List.mem_flatMap] at h
  obtain ⟨c, _, hx⟩ := h
  by_cases hcf : c = Char.ofNat 12
  · rw [if_pos hcf] at hx
    rcases List.mem_cons.mp hx with h1 | hx2
    · exact absurd h1 (by decide)
    · rcases List.mem_cons.mp hx2 with h1 | hx3
      · exact absurd h1 (by decide)
      · exact absurd hx3 (List.not_mem_nil _)
  · rw [if_neg hcf] at hx
    rcases List.mem_cons.mp hx with h1 | hx2
    · exact hcf h1.symm
    · exact absurd hx2 (List.not_mem_nil _)

/-- `replFF` is the identity on form-feed-free input. -/
theorem replFF_fix : ∀ {l : List Char}, Char.ofNat 12 ∉ l → replFF l = l := by
  intro l
  induction l with
  | nil => intro _; rfl
  | cons c cs ih =>
    intro h
    have hc : c ≠ Char.ofNat 12 := fun hc => h (hc ▸ List.mem_cons_self c cs)
    have hcs : Char.ofNat 12 ∉ cs := fun hm => h (List.mem_cons_of_mem _ hm)
    simp only [replFF, List.flatMap_cons, if_neg hc]
    simp only [replFF] at ih
    rw [ih hcs]
    rfl

/-- Transport `List.all` along a character-subset relation. -/
theorem all_subset {p : Char → Bool} {l m : List Char}
    (hsub : ∀ x ∈ m, x ∈ l) (h : l.all p = true) : m.all p = true := by
  simp only [List.all_eq_true] at *
  exact fun c hc => h c (hsub c hc)

/-- A space/tab that is not a tab is a space. -/
theorem spTab_eq_space {c : Char} (h : isSpTab c = true) (ht : ¬(c = '\t')) :
    c = ' ' := by
  simp only [isSpTab, Bool.or_eq_true, decide_eq_true_eq] at h
  rcases h with h | h
  · exact h
  · exact absurd h ht

/-- `tabFree` splits on a cons. -/
theorem tf_cons {c : Char} {cs : List Char} (h : tabFree (c :: cs) = true) :
    ¬(c = '\t') ∧ tabFree cs = true := by
  simp only [tabFree, List.all_cons, Bool.and_eq_true, Bool.not_eq_true',
    decide_eq_false_iff_not] at h
  simpa [tabFree] using h

/-- `noDoubleSpace` head window. -/
theorem nds_first {a b : Char} {t : List Char}
    (h : noDoubleSpace (a :: b :: t) = true) : ¬(a = ' ' ∧ b = ' ') := by
  simp only [noDoubleSpace, Bool.and_eq_true, Bool.not_eq_true',
    Bool.and_eq_false_iff, decide_eq_false_iff_not] at h
  rcases h.1 with h1 | h1
  · exact fun hp => h1 hp.1
  · exact fun hp => h1 hp.2

/-- `noTripleNL` head window. -/
theorem ntn_first {a b e : Char} {t : List Char}
    (h : noTripleNL (a :: b :: e :: t) = true) :
    ¬(a = '\n' ∧ b = '\n' ∧ e = '\n') := by
  simp only [noTripleNL, Bool.and_eq_true, Bool.not_eq_true',
    Bool.and_eq_false_iff, decide_eq_false_iff_not] at h
  rcases h.1 with (h1 | h1) | h1
  · exact fun hp => h1 hp.1
  · exact fun hp => h1 hp.2.1
  · exact fun hp => h1 hp.2.2

/-- A flag-true scan never outputs a leading space/tab. -/
theorem ws_head_true :
    ∀ {l : List Char} {x : Char}, (cwsAux true l).head? = some x →
      isSpTab x = false := by
  intro l
  induction l with
  | nil => intro x h; exact Option.noConfusion h
  | cons c cs ih =>
    intro x h
    by_cases hc : isSpTab c = true
    · rw [show cwsAux true (c :: cs) = cwsAux true cs by simp [cwsAux, hc]] at h
      exact ih h
    · rw [show cwsAux true (c :: cs) = c :: cwsAux false cs by
        simp [cwsAux, hc]] at h
      obtain rfl := Option.some.inj h
      exact Bool.of_not_eq_true hc

/-- Starting flags agree when the head is not a space/tab. -/
theorem ws_flag_irrel {c : Char} {cs : List Char} (h : isSpTab c = false) :
    cwsAux true (c :: cs) = cwsAux false (c :: cs) := by
  simp [cwsAux, h]

/-- The whitespace-collapsing pass is the identity on its normal forms. -/
theorem ws_fix :
    ∀ l : List Char, tabFree l = true → noDoubleSpace l = true →
      cwsAux false l = l := by
  intro l
  induction l with
  | nil => intro _ _; rfl
  | cons c cs ih =>
    intro htf hn
    obtain ⟨hct, htf'⟩ := tf_cons htf
    have hn' := nds_tail hn
    by_cases hc : isSpTab c = true
    · obtain rfl := spTab_eq_space hc hct
      have step : ∀ rest : List Char,
          cwsAux false (' ' :: rest) = ' ' :: cwsAux true rest :=
        fun rest => by simp [cwsAux, isSpTab]
      cases cs with
      | nil => rfl
      | cons d ds =>
        obtain ⟨hdt, -⟩ := tf_cons htf'
        have hd : isSpTab d = false := by
          have hds : ¬(d = ' ') := fun hds => nds_first hn ⟨rfl, hds⟩
          simp [isSpTab, hds, hdt]
        calc cwsAux false (' ' :: d :: ds)
            = ' ' :: cwsAux true (d :: ds) := step (d :: ds)
          _ = ' ' :: cwsAux false (d :: ds) := by rw [ws_flag_irrel hd]
          _ = ' ' :: d :: ds := by rw [ih htf' hn']
    · rw [show cwsAux false (c :: cs) = c :: cwsAux false cs by
        simp [cwsAux, hc]]
      rw [ih htf' hn']

/-- The whitespace-collapsing pass outputs no tab. -/
theorem ws_out_tf : ∀ (l : List Char) (b : Bool), tabFree (cwsAux b l) = true := by
  intro l
  induction l with
  | nil => intro b; rfl
  | cons c cs ih =>
    intro b
    by_cases hc : isSpTab c = true
    · cases b with
      | true =>
        rw [show cwsAux true (c :: cs) = cwsAux true cs by simp [cwsAux, hc]]
        exact ih true
      | false =>
        rw [show cwsAux false (c :: cs) = ' ' :: cwsAux true cs by
          simp [cwsAux, hc]]
        have h2 := ih true
        simp only [tabFree, List.all_cons] at h2 ⊢
        simp [h2]
    · rw [show cwsAux b (c :: cs) = c :: cwsAux false cs by simp [cwsAux, hc]]
      have h2 := ih false
      have hct : ¬(c = '\t') := fun h => by simp [isSpTab, h] at hc
      simp only [tabFree, List.all_cons] at h2 ⊢
      simp [h2, hct]

/-- The whitespace-collapsing pass outputs no two adjacent spaces. -/
theorem ws_out_nds :
    ∀ (l : List Char) (b : Bool), noDoubleSpace (cwsAux b l) = true := by
  intro l
  induction l with
  | nil => intro b; rfl
  | cons c cs ih =>
    intro b
    by_cases hc : isSpTab c = true
    · cases b with
      | true =>
        rw [show cwsAux true (c :: cs) = cwsAux true cs by simp [cwsAux, hc]]
        exact ih true
      | false =>
        rw [show cwsAux false (c :: cs) = ' ' :: cwsAux true cs by
          simp [cwsAux, hc]]
        refine nds_cons (ih true) ?_
        intro x hx hpair
        have := ws_head_true hx
        simp [isSpTab, hpair.2] at this
    · rw [show cwsAux b (c :: cs) = c :: cwsAux false cs by simp [cwsAux, hc]]
      refine nds_cons (ih false) ?_
      intro x _ hpair
      exact hc (by simp [isSpTab, hpair.1])

/-- One step of `cnlAux` on a newline below the cap. -/
theorem cnl_step_nl {k : Nat} (hk : k < 2) (cs : List Char) :
    cnlAux k ('\n' :: cs) = '\n' :: cnlAux (k + 1) cs := by
  simp [cnlAux, hk]

/-- One step of `cnlAux` on a newline at the cap. -/
theorem cnl_step_drop {k : Nat} (hk : ¬ k < 2) (cs : List Char) :
    cnlAux k ('\n' :: cs) = cnlAux k cs := by
  simp [cnlAux, hk]

/-- One step of `cnlAux` on a non-newline. -/
theorem cnl_step_other {k : Nat} {c : Char} (hc : ¬(c = '\n')) (cs : List Char) :
    cnlAux k (c :: cs) = c :: cnlAux 0 cs := by
  simp [cnlAux, hc]

/-- The head of a flag-0 newline collapse is a newline or the input
head. -/
theorem cnl_head0 {cs : List Char} {x : Char}
    (h : (cnlAux 0 cs).head? = some x) : x = '\n' ∨ cs.head? = some x := by
  cases cs with
  | nil => exact Option.noConfusion h
  | cons d ds =>
    by_cases hd : d = '\n'
    · subst hd
      rw [cnl_step_nl (by decide)] at h
      exact Or.inl (Option.some.inj h).symm
    · rw [cnl_step_other hd] at h
      exact Or.inr ((Option.some.inj h) ▸ rfl)

/-- The newline-collapsing pass preserves `noDoubleSpace`. -/
theorem nds_cnlAux :
    ∀ (l : List Char) (k : Nat), noDoubleSpace l = true →
      noDoubleSpace (cnlAux k l) = true := by
  intro l
  induction l with
  | nil => intro k _; rfl
  | cons c cs ih =>
    intro k h
    by_cases hc : c = '\n'
    · subst hc
      by_cases hk : k < 2
      · rw [cnl_step_nl hk]
        refine nds_cons (ih (k + 1) (nds_tail h)) ?_
        intro x _ hpair
        exact absurd hpair.1 (by decide)
      · rw [cnl_step_drop hk]
        exact ih k (nds_tail h)
    · rw [cnl_step_other hc]
      refine nds_cons (ih 0 (nds_tail h)) ?_
      intro x hx hpair
      rcases cnl_head0 hx with rfl | hhead
      · exact absurd hpair.2 (by decide)
      · cases cs with
        | nil => exact Option.noConfusion hhead
        | cons d ds =>
          obtain rfl := Option.some.inj hhead
          exact nds_first h ⟨hpair.1, hpair.2⟩

/-- The newline-collapsing pass preserves `tabFree`. -/
theorem tf_cnlAux {l : List Char} (h : tabFree l = true) (k : Nat) :
    tabFree (cnlAux k l) = true := by
  simp only [tabFree, List.all_eq_true] at *
  intro c hc
  rcases mem_cnlAux hc with rfl | hmem
  · decide
  · exact h c hmem

/-- The newline-collapsing pass is the identity on its normal forms
(with the flag invariant: flag 1 requires no double newline at the head,
flag 2 requires no newline at the head). -/
theorem cnl_fix_aux :
    ∀ (l : List Char) (k : Nat), noTripleNL l = true →
      (k = 0 ∨ (k = 1 ∧ ¬(l.head? = some '\n' ∧ l.tail.head? = some '\n')) ∨
        (k = 2 ∧ ¬(l.head? = some '\n'))) →
      cnlAux k l = l := by
  intro l
  induction l with
  | nil => intro k _ _; rfl
  | cons c cs ih =>
    intro k h hk
    by_cases hc : c = '\n'
    · subst hc
      rcases hk with rfl | ⟨rfl, hg⟩ | ⟨rfl, hg⟩
      · rw [cnl_step_nl (by decide)]
        have hg1 : ¬(cs.head? = some '\n' ∧ cs.tail.head? = some '\n') := by
          rintro ⟨h1, h2⟩
          cases cs with
          | nil => exact Option.noConfusion h1
          | cons d ds =>
            obtain rfl := Option.some.inj h1
            cases ds with
            | nil => exact Option.noConfusion h2
            | cons e es =>
              obtain rfl := Option.some.inj h2
              exact ntn_first h ⟨rfl, rfl, rfl⟩
        rw [ih 1 (ntn_tail h) (Or.inr (Or.inl ⟨rfl, hg1⟩))]
      · rw [cnl_step_nl (by decide)]
        have hg2 : ¬(cs.head? = some '\n') := by
          intro h1
          exact hg ⟨rfl, by simpa using h1⟩
        rw [ih 2 (ntn_tail h) (Or.inr (Or.inr ⟨rfl, hg2⟩))]
      · exact absurd rfl hg
    · rw [cnl_step_other hc]
      rw [ih 0 (ntn_tail h) (Or.inl rfl)]

/-- The newline-collapsing pass is the identity on `noTripleNL` input. -/
theorem cnl_fix {l : List Char} (h : noTripleNL l = true) : cnlAux 0 l = l :=
  cnl_fix_aux l 0 h (Or.inl rfl)

/-- Output normal form of the newline-collapsing pass, with the emitted
newline context for each flag value. -/
theorem nl_out_all :
    ∀ l : List Char,
      noTripleNL (cnlAux 0 l) = true ∧
      noTripleNL ('\n' :: cnlAux 1 l) = true ∧
      noTripleNL ('\n' :: '\n' :: cnlAux 2 l) = true := by
  intro l
  induction l with
  | nil => exact ⟨rfl, rfl, rfl⟩
  | cons c cs ih =>
    obtain ⟨ih0, ih1, ih2⟩ := ih
    by_cases hc : c = '\n'
    · subst hc
      refine ⟨?_, ?_, ?_⟩
      · rw [cnl_step_nl (by decide)]
        exact ih1
      · rw [cnl_step_nl (by decide)]
        exact ih2
      · rw [cnl_step_drop (by decide)]
        exact ih2
    · have hstep0 : cnlAux 0 (c :: cs) = c :: cnlAux 0 cs := cnl_step_other hc cs
      have hstep1 : cnlAux 1 (c :: cs) = c :: cnlAux 0 cs := cnl_step_other hc cs
      have hstep2 : cnlAux 2 (c :: cs) = c :: cnlAux 0 cs := cnl_step_other hc cs
      have hbase : noTripleNL (c :: cnlAux 0 cs) = true := ntn_cons1 ih0 hc
      have hone : noTripleNL ('\n' :: c :: cnlAux 0 cs) = true :=
        ntn_cons hbase (Or.inr (Or.inl hc))
      refine ⟨?_, ?_, ?_⟩
      · rw [hstep0]
        exact hbase
      · rw [hstep1]
        exact hone
      · rw [hstep2]
        refine ntn_cons hone (Or.inr (Or.inr ?_))
        intro x hx
        obtain rfl := Option.some.inj hx
        exact hc

/-- `noTripleNL` holds of every newline-collapse output. -/
theorem nl_out (l : List Char) : noTripleNL (cnlAux 0 l) = true :=
  (nl_out_all l).1

/-- A head of a `take` is a head of the list. -/
theorem head?_take {m : Nat} {t : List Char} {x : Char}
    (h : (t.take m).head? = some x) : t.head? = some x := by
  cases m with
  | zero => exact Option.noConfusion h
  | succ m' =>
    cases t with
    | nil => exact Option.noConfusion h
    | cons a t' =>
      rw [List.take_succ_cons] at h
      exact h

/-- `noDoubleSpace` is closed under initial segments. -/
theorem nds_take :
    ∀ (l : List Char) (n : Nat), noDoubleSpace l = true →
      noDoubleSpace (l.take n) = true := by
  intro l
  induction l with
  | nil => intro n _; rw [List.take_nil]; rfl
  | cons c cs ih =>
    intro n h
    cases n with
    | zero => rfl
    | succ m =>
      rw [List.take_succ_cons]
      refine nds_cons (ih m (nds_tail h)) ?_
      intro x hx hpair
      have hcs : cs.head? = some x := head?_take hx
      cases cs with
      | nil => exact Option.noConfusion hcs
      | cons d ds =>
        obtain rfl := Option.some.inj hcs
        exact nds_first h hpair

/-- `noTripleNL` is closed under initial segments. -/
theorem ntn_take :
    ∀ (l : List Char) (n : Nat), noTripleNL l = true →
      noTripleNL (l.take n) = true := by
  intro l
  induction l with
  | nil => intro n _; rw [List.take_nil]; rfl
  | cons c cs ih =>
    intro n h
    cases n with
    | zero => rfl
    | succ m =>
      rw [List.take_succ_cons]
      cases htk : cs.take m with
      | nil => rfl
      | cons b m' =>
        rw [← htk]
        have hm : noTripleNL (cs.take m) = true := ih m (ntn_tail h)
        rw [htk] at hm ⊢
        refine ntn_cons hm ?_
        by_cases hc : c = '\n'
        · by_cases hb : b = '\n'
          · refine Or.inr (Or.inr ?_)
            intro x hx hxn
            subst hxn
            cases cs with
            | nil =>
              rw [List.take_nil] at htk
              exact List.noConfusion htk
            | cons d ds =>
              cases m with
              | zero =>
                rw [List.take_zero] at htk
                exact List.noConfusion htk
              | succ m2 =>
                rw [List.take_succ_cons] at htk
                obtain ⟨rfl, hm'⟩ := List.cons.inj htk
                rw [← hm'] at hx
                have hds : ds.head? = some '\n' := head?_take hx
                cases ds with
                | nil => exact Option.noConfusion hds
                | cons e es =>
                  obtain rfl := Option.some.inj hds
                  exact ntn_first h ⟨hc, hb, rfl⟩
          · exact Or.inr (Or.inl hb)
        · exact Or.inl hc

/-- `noDoubleSpace` is closed under `dropWhile`. -/
theorem nds_dropWhile {p : Char → Bool} :
    ∀ {l : List Char}, noDoubleSpace l = true →
      noDoubleSpace (l.dropWhile p) = true := by
  intro l
  induction l with
  | nil => intro _; rfl
  | cons c cs ih =>
    intro h
    by_cases hc : p c
    · rw [List.dropWhile_cons_of_pos hc]
      exact ih (nds_tail h)
    · rwa [List.dropWhile_cons_of_neg hc]

/-- `noTripleNL` is closed under `dropWhile`. -/
theorem ntn_dropWhile {p : Char → Bool} :
    ∀ {l : List Char}, noTripleNL l = true →
      noTripleNL (l.dropWhile p) = true := by
  intro l
  induction l with
  | nil => intro _; rfl
  | cons c cs ih =>
    intro h
    by_cases hc : p c
    · rw [List.dropWhile_cons_of_pos hc]
      exact ih (ntn_tail h)
    · rwa [List.dropWhile_cons_of_neg hc]

/-- `noDoubleSpace` is closed under `pyStrip`. -/
theorem nds_pyStrip {l : List Char} (h : noDoubleSpace l = true) :
    noDoubleSpace (pyStrip l) = true := by
  obtain ⟨n, hn⟩ := dt_eq_take isPySpace (l.dropWhile isPySpace)
  rw [pyStrip, hn]
  exact nds_take _ n (nds_dropWhile h)

/-- `noTripleNL` is closed under `pyStrip`. -/
theorem ntn_pyStrip {l : List Char} (h : noTripleNL l = true) :
    noTripleNL (pyStrip l) = true := by
  obtain ⟨n, hn⟩ := dt_eq_take isPySpace (l.dropWhile isPySpace)
  rw [pyStrip, hn]
  exact ntn_take _ n (ntn_dropWhile h)

/-- C4 (corrected): the claim that `normalize` is idempotent on every
string fails — deleting a disallowed character can merge two spaces (or
two newline runs) that only the next pass collapses; see the
counterexample at `"a € b"`.  Amended claim: on every input all of whose
characters already lie in the normalizer's allow-list (word characters,
whitespace, or the retained punctuation) — i.e. whenever the destructive
deletion step removes nothing — `normalize` is idempotent. -/
theorem C4_normalize_idempotent_on_allowlist (s : List Char)
    (h : ∀ c ∈ s, isAllowed c = true) :
    clean_text (clean_text s) = clean_text s := by
  by_cases hs : s = []
  · subst hs; rfl
  · have hv_allowed :
        ∀ c ∈ collapseNL (collapseWS (replFF s)), isAllowed c = true := by
      intro c hc
      rcases mem_cnlAux hc with rfl | hc2
      · decide
      · rcases mem_cwsAux hc2 with rfl | hc3
        · decide
        · rcases mem_replFF hc3 with rfl | hc4
          · decide
          · exact h c hc4
    have hfil : List.filter isAllowed (collapseNL (collapseWS (replFF s))) =
        collapseNL (collapseWS (replFF s)) :=
      List.filter_eq_self.mpr (fun a ha => hv_allowed a ha)
    have hts : clean_text s = pyStrip (collapseNL (collapseWS (replFF s))) := by
      rw [clean_text, if_neg hs, hfil]
    rw [hts]
    by_cases ht0 : pyStrip (collapseNL (collapseWS (replFF s))) = []
    · rw [ht0]; rfl
    · have htf_t : tabFree (pyStrip (collapseNL (collapseWS (replFF s)))) = true := by
        have h2 : tabFree (collapseNL (collapseWS (replFF s))) = true :=
          tf_cnlAux (ws_out_tf (replFF s) false) 0
        simp only [tabFree] at h2 ⊢
        exact all_subset (fun x hx => mem_pyStrip hx) h2
      have hnds_t :
          noDoubleSpace (pyStrip (collapseNL (collapseWS (replFF s)))) = true :=
        nds_pyStrip (nds_cnlAux (collapseWS (replFF s)) 0
          (ws_out_nds (replFF s) false))
      have hntn_t :
          noTripleNL (pyStrip (collapseNL (collapseWS (replFF s)))) = true :=
        ntn_pyStrip (nl_out (collapseWS (replFF s)))
      have hff_t : Char.ofNat 12 ∉ pyStrip (collapseNL (collapseWS (replFF s))) := by
        intro hmem
        rcases mem_cnlAux (mem_pyStrip hmem) with h1 | h1
        · exact absurd h1 (by decide)
        · rcases mem_cwsAux h1 with h2 | h2
          · exact absurd h2 (by decide)
          · exact ff_not_mem_replFF s h2
      have hall_t :
          ∀ c ∈ pyStrip (collapseNL (collapseWS (replFF s))), isAllowed c = true :=
        fun c hc => hv_allowed c (mem_pyStrip hc)
      rw [clean_text, if_neg ht0, replFF_fix hff_t,
        show collapseWS (pyStrip (collapseNL (collapseWS (replFF s)))) =
            pyStrip (collapseNL (collapseWS (replFF s))) from
          ws_fix _ htf_t hnds_t,
        show collapseNL (pyStrip (collapseNL (collapseWS (replFF s)))) =
            pyStrip (collapseNL (collapseWS (replFF s))) from
          cnl_fix hntn_t,
        List.filter_eq_self.mpr hall_t, pyStrip_idem]

/-- Witness for C4 at a concrete allow-list string containing a tab run,
repeated spaces and a four-newline run. -/
theorem C4_normalize_idempotent_on_allowlist_witness :
    (∀ c ∈ ( "Artículo  5:\n\n\n\nTexto (plazo), ¡ya!").data, isAllowed c = true) ∧
    clean_text (clean_text ( "Artículo  5:\n\n\n\nTexto (plazo), ¡ya!").data) =
      clean_text ( "Artículo  5:\n\n\n\nTexto (plazo), ¡ya!").data :=
  ⟨by decide, C4_normalize_idempotent_on_allowlist _ (by decide)⟩

/-- Counterexample for C4 as stated: `normalize` is not idempotent on
`"a € b"` — the euro sign is deleted by the allow-list step after
whitespace collapsing, leaving a double space that only a second pass
collapses. -/
theorem C4_counterexample :
    clean_text (clean_text ( "a € b").data) ≠ clean_text ( "a € b").data := by
  intro hEq
  have h1 : clean_text ( "a € b").data = ( "a  b").data := by decide
  have h2 : clean_text (clean_text ( "a € b").data) = ( "a b").data := by decide
  rw [h2, h1] at hEq
  exact absurd hEq (by decide)
